import Mathlib

/-!
Shallow embedding of the length-bounded text segmenter implemented by the
class `TextSplitter` in `splitter.py`.

Text is modelled as `List Char`.  Python's whitespace-based primitives
(`str.split()`, `str.strip()`, `str.rstrip()`, slicing) are modelled
character by character.  The sentence-terminator regex `(?<=[.!?])\s+`
and the minor-punctuation regex `[,;:]` are modelled by direct scans.
The hard-boundary pattern is modelled at its default value, the single
newline character (`re.split(r"\n", text)` keeps empty pieces).

The `while` loop of `_split_long_chunk` is not structurally terminating
(and indeed fails to terminate on some inputs), so the generator is
modelled with fuel: `runSLC` returns the chunks yielded by the first
`fuel` loop iterations together with the remaining text, and the fully
consumed generators (`splitLongF`, `aggSentences`, `splitBlocksF`,
`splitTextF`) return `none` exactly when the loop has not finished
within the given fuel.
-/

abbrev Str := List Char

/-- Character data of a string literal, for readable concrete inputs. -/
def S (s : String) : Str := s.data

/-- Python's notion of (ASCII) whitespace used by `str.split`/`str.strip`
and by the regex class `\s`. -/
def isWs (c : Char) : Bool :=
  c = ' ' || c = '\t' || c = '\n' || c = '\r' || c = '\x0b' || c = '\x0c'

/-- Python `str.lstrip()`. -/
def lstrip (s : Str) : Str := s.dropWhile isWs

/-- Python `str.rstrip()`. -/
def rstrip (s : Str) : Str := (s.reverse.dropWhile isWs).reverse

/-- Python `str.strip()`. -/
def strip (s : Str) : Str := rstrip (lstrip s)

/-- Helper for `pyWords`: accumulates the current word in reverse. -/
def wordsAux : Str → Str → List Str
  | [], acc => if acc = [] then [] else [acc.reverse]
  | c :: rest, acc =>
    if isWs c then
      if acc = [] then wordsAux rest [] else acc.reverse :: wordsAux rest []
    else wordsAux rest (c :: acc)

/-- Python `str.split()` with no argument: split on runs of whitespace,
discarding empty pieces. -/
def pyWords (s : Str) : List Str := wordsAux s []

/-- The character class of `_intra_sentence_split_regex`, `[,;:]`. -/
def isMinorPunct (c : Char) : Bool := c = ',' || c = ';' || c = ':'

/-- Index of the last minor-punctuation character of `s`, as computed by
the `finditer` scan over `_intra_sentence_split_regex` (lines 89-91). -/
def lastPunctPos : Str → Option Nat
  | [] => none
  | c :: rest =>
    match lastPunctPos rest with
    | some p => some (p + 1)
    | none => if isMinorPunct c then some 0 else none

/-- The configuration stored by `TextSplitter.__init__` (the hard-boundary
pattern is fixed at its default, a single newline). -/
structure Config where
  maxChunkSize : Nat
  lengthFn : Str → Nat

/-- `TextSplitter.__init__` (lines 34-59): raises `ValueError` when
`max_chunk_size <= 0`, otherwise stores the size and the length function
(defaulting to `len`, the character count). -/
def textSplitterInit (maxChunkSize : Int) (lengthFunction : Option (Str → Nat)) :
    Except String Config :=
  if maxChunkSize ≤ 0 then Except.error "max_chunk_size must be a positive integer."
  else Except.ok ⟨maxChunkSize.toNat, lengthFunction.getD (fun s => s.length)⟩

/-- The `for word in words` scan of `_split_long_chunk` (lines 75-83):
accumulates cost `cl` (one separator unit charged when `cl > 0`) and the
character offset `eco` (`estimated_cut_off`, `len(word) + 1` per word),
stopping before the first word that would push the cost past the limit. -/
def wordScan (cfg : Config) : List Str → Nat → Nat → Nat
  | [], _, eco => eco
  | w :: ws, cl, eco =>
    let wl := cfg.lengthFn w + (if 0 < cl then 1 else 0)
    if cfg.maxChunkSize < cl + wl then eco
    else wordScan cfg ws (cl + wl) (eco + w.length + 1)

/-- `estimated_cut_off` computed from `current_chunk.split()`. -/
def estimatedCutOff (cfg : Config) (cc : Str) : Nat :=
  wordScan cfg (pyWords cc) 0 0

/-- One iteration of the `while` loop of `_split_long_chunk`
(lines 72-101): returns the yielded chunk and the new `current_chunk`. -/
def sLCStep (cfg : Config) (cc : Str) : Str × Str :=
  let cutText := rstrip (cc.take (estimatedCutOff cfg cc))
  match lastPunctPos cutText with
  | some p => (strip (cc.take (p + 1)), strip (cc.drop (p + 1)))
  | none => (cutText, strip (cc.drop cutText.length))

/-- Runs up to `fuel` iterations of the `while` loop of
`_split_long_chunk`, returning the chunks yielded so far and the
remaining `current_chunk` (which the loop has finished with iff its cost
is within the limit). -/
def runSLC (cfg : Config) : Nat → Str → List Str × Str
  | 0, cc => ([], cc)
  | n + 1, cc =>
    if cfg.maxChunkSize < cfg.lengthFn cc then
      let st := sLCStep cfg cc
      let r := runSLC cfg n st.2
      (st.1 :: r.1, r.2)
    else ([], cc)

/-- The full generator `_split_long_chunk` (lines 63-105) under `fuel`
loop iterations: `some` of all yielded chunks (including the final
remainder, when non-empty) if the loop finishes, else `none`. -/
def splitLongF (cfg : Config) (fuel : Nat) (cc : Str) : Option (List Str) :=
  let r := runSLC cfg fuel cc
  if cfg.maxChunkSize < cfg.lengthFn r.2 then none
  else some (r.1 ++ (if r.2 = [] then [] else [r.2]))

/-- Sentence terminators of the regex `(?<=[.!?])\s+` used when a force
split pattern is configured (line 129). -/
def sentenceTerm (c : Char) : Bool := c = '.' || c = '!' || c = '?'

/-- Helper for `splitSentences`: models `re.split` with pattern
`(?<=[.!?])\s+` by a left-to-right scan.  `acc` holds the current piece
in reverse; `skip` is true while consuming the (greedy, maximal)
whitespace run of a match. -/
def ssAux (term : Char → Bool) : Bool → Str → Str → List Str
  | _, acc, [] => [acc.reverse]
  | skip, acc, c :: rest =>
    if skip && isWs c then ssAux term true acc rest
    else if isWs c && (match acc with | p :: _ => term p | [] => false) then
      acc.reverse :: ssAux term true [] rest
    else ssAux term false (c :: acc) rest

/-- `re.split(r"(?<=[.!?])\s+", block)` (line 140): cut after a
terminator followed by whitespace, discarding the whitespace run. -/
def splitSentences (term : Char → Bool) (s : Str) : List Str :=
  ssAux term false [] s

/-- The sentence loop of `split` (lines 142-175): walks the sentences of
one block with accumulator `acc`, stripping each sentence, skipping empty
ones, sending over-long sentences to `_split_long_chunk` (Case 1), and
otherwise aggregating greedily (Cases 2 and 3); flushes the accumulator
at the end of the block. -/
def aggSentences (cfg : Config) (fuel : Nat) : List Str → Str → Option (List Str)
  | [], acc => if acc = [] then some [] else some [acc]
  | s :: rest, acc =>
    if strip s = [] then aggSentences cfg fuel rest acc
    else if cfg.maxChunkSize < cfg.lengthFn (strip s) then
      (splitLongF cfg fuel (strip s)).bind fun parts =>
        (aggSentences cfg fuel rest []).map fun tail =>
          (if acc = [] then [] else [acc]) ++ parts ++ tail
    else if cfg.maxChunkSize <
        cfg.lengthFn (acc ++ (if acc = ([] : Str) then [] else [' ']) ++ strip s) then
      (aggSentences cfg fuel rest (strip s)).map fun tail => acc :: tail
    else aggSentences cfg fuel rest (acc ++ (if acc = ([] : Str) then [] else [' ']) ++ strip s)

/-- Processing of one block of `split` (lines 136-175): blocks that are
empty or whitespace-only are skipped; otherwise the stripped block is
split into sentences and aggregated. -/
def processBlockF (cfg : Config) (fuel : Nat) (b : Str) : Option (List Str) :=
  if strip b = [] then some []
  else aggSentences cfg fuel (splitSentences sentenceTerm (strip b)) []

/-- The `for block in blocks` loop of `split`: concatenates the chunks of
each block in order. -/
def splitBlocksF (cfg : Config) (fuel : Nat) : List Str → Option (List Str)
  | [] => some []
  | b :: bs =>
    (processBlockF cfg fuel b).bind fun cs =>
      (splitBlocksF cfg fuel bs).map fun rest => cs ++ rest

/-- Helper for `splitOnNl`. -/
def splitOnNlAux : Str → Str → List Str
  | [], acc => [acc.reverse]
  | c :: rest, acc =>
    if c = '\n' then acc.reverse :: splitOnNlAux rest []
    else splitOnNlAux rest (c :: acc)

/-- `re.split(r"\n", text)` (line 126) with the default force split
pattern: split at every newline, keeping empty pieces. -/
def splitOnNl (s : Str) : List Str := splitOnNlAux s []

/-- `TextSplitter.split` (lines 107-175) with the default force split
pattern: empty or whitespace-only input yields nothing; otherwise the
text is split into blocks at newlines and each block is processed in
order. -/
def splitTextF (cfg : Config) (fuel : Nat) (text : Str) : Option (List Str) :=
  if strip text = [] then some []
  else splitBlocksF cfg fuel (splitOnNl text)

/-- A configuration with the default character-count metric. -/
def cfgLen (m : Nat) : Config := ⟨m, fun s => s.length⟩

/-- A string with neither leading nor trailing whitespace. -/
def Stripped (s : Str) : Prop := lstrip s = s ∧ rstrip s = s

/-- When one loop iteration of `_split_long_chunk` yields the empty chunk
and leaves the remaining text unchanged, every further iteration does the
same: the loop never makes progress. -/
theorem runSLC_stuck (cfg : Config) (cc : Str) (hstep : sLCStep cfg cc = ([], cc))
    (hlf : cfg.maxChunkSize < cfg.lengthFn cc) :
    ∀ n, runSLC cfg n cc = (List.replicate n [], cc) := by
  intro n
  induction n with
  | zero => rfl
  | succ n ih => simp [runSLC, hlf, hstep, ih, List.replicate_succ]

/-- Under a stuck loop iteration, `_split_long_chunk` never finishes,
whatever the fuel. -/
theorem splitLongF_stuck (cfg : Config) (cc : Str) (hstep : sLCStep cfg cc = ([], cc))
    (hlf : cfg.maxChunkSize < cfg.lengthFn cc) :
    ∀ n, splitLongF cfg n cc = none := by
  intro n
  simp [splitLongF, runSLC_stuck cfg cc hstep hlf n, hlf]

/-- A whole `split` call on a one-block, one-sentence input whose fallback
loop is stuck never finishes, whatever the fuel. -/
theorem splitTextF_stuck (cfg : Config) (t : Str)
    (h0 : splitOnNl t = [t]) (h1 : strip t = t) (h2 : t ≠ [])
    (h3 : splitSentences sentenceTerm t = [t])
    (h4 : cfg.maxChunkSize < cfg.lengthFn t)
    (hstep : sLCStep cfg t = ([], t)) :
    ∀ n, splitTextF cfg n t = none := by
  intro n
  have h5 := splitLongF_stuck cfg t hstep h4 n
  simp [splitTextF, h0, h1, h2, splitBlocksF, processBlockF, h3, aggSentences, h4, h5]

/-- C1: the size-bound claim fails on the code.  With the character-count
metric and limit 4, `split` on `"a   bc d"` yields the chunk `"a   b"` of
cost 5 > 4, and that chunk is not a single whitespace-delimited word (it
splits into two words), so it is not the permitted degenerate exception:
the `estimated_cut_off` bookkeeping of `_split_long_chunk` assumes single
spaces between words and desynchronizes on the three-space run. -/
theorem c1_size_bound_code_bug :
    splitTextF (cfgLen 4) 8 (S "a   bc d") = some [S "a   b", S "c d"] ∧
    (cfgLen 4).lengthFn (S "a   b") = 5 ∧ 4 < 5 ∧
    pyWords (S "a   b") = [S "a", S "b"] := by
  refine ⟨by decide, by decide, by decide, by decide⟩

/-- C2: the termination claim fails on the code.  With the character-count
metric (total and pure) and limit 4, on the single word `"abcdefgh"` one
iteration of the fallback loop of `_split_long_chunk` yields `""` and
leaves the remaining text unchanged (it does not strictly shrink), so
`split` never terminates: no amount of fuel finishes the loop. -/
theorem c2_termination_code_bug :
    (∀ n, splitTextF (cfgLen 4) n (S "abcdefgh") = none) ∧
    sLCStep (cfgLen 4) (S "abcdefgh") = ([], S "abcdefgh") := by
  refine ⟨splitTextF_stuck (cfgLen 4) (S "abcdefgh") (by decide) (by decide)
    (by decide) (by decide) (by decide) (by decide), by decide⟩

/-- C3: the single-over-long-word claim fails on the code.  With the
character-count metric and limit 3, on the single word `"abcde"` (cost 5)
`split` does not emit one chunk containing the word: the word-accumulation
scan stops with zero accumulated words, the candidate region is empty, no
special case exists, and the loop yields the empty string forever — after
`n` iterations the yielded chunks are `n` copies of `""` and the
remaining text is still `"abcde"`. -/
theorem c3_single_word_code_bug :
    (∀ n, splitTextF (cfgLen 3) n (S "abcde") = none) ∧
    (∀ n, runSLC (cfgLen 3) n (S "abcde") = (List.replicate n [], S "abcde")) := by
  refine ⟨splitTextF_stuck (cfgLen 3) (S "abcde") (by decide) (by decide)
      (by decide) (by decide) (by decide) (by decide),
    runSLC_stuck (cfgLen 3) (S "abcde") (by decide) (by decide)⟩

/-- C4: the Scenario 3 part of the claim fails on the code.  The input
`"a,b,c,d,e,f,g,h,i,j,k,l,m,n,o,p,q,r,s,t"` contains no whitespace, so
`current_chunk.split()` returns it as one word, the word-accumulation
scan (limit 10, character count) accumulates nothing, the candidate span
is empty and contains no comma, and instead of cutting at the last comma
before the limit the fallback loop never terminates. -/
theorem c4_punctuation_cut_code_bug :
    (∀ n, splitTextF (cfgLen 10) n (S "a,b,c,d,e,f,g,h,i,j,k,l,m,n,o,p,q,r,s,t") = none) ∧
    pyWords (S "a,b,c,d,e,f,g,h,i,j,k,l,m,n,o,p,q,r,s,t") =
      [S "a,b,c,d,e,f,g,h,i,j,k,l,m,n,o,p,q,r,s,t"] ∧
    estimatedCutOff (cfgLen 10) (S "a,b,c,d,e,f,g,h,i,j,k,l,m,n,o,p,q,r,s,t") = 0 := by
  refine ⟨splitTextF_stuck (cfgLen 10) (S "a,b,c,d,e,f,g,h,i,j,k,l,m,n,o,p,q,r,s,t")
    (by decide) (by decide) (by decide) (by decide) (by decide) (by decide),
    by decide, by decide⟩

/-- C5: the no-loss claim fails on the code.  With the character-count
metric and limit 5, `split` on `"a   bc d"` (words `a`, `bc`, `d`) yields
the chunks `"a   b"` and `"c d"`, whose normalized concatenation has the
word sequence `a`, `b`, `c`, `d`: the word `bc` has been broken apart,
because `estimated_cut_off` undercounts the three-space run and the
character cut lands inside the word `bc`. -/
theorem c5_no_loss_code_bug :
    splitTextF (cfgLen 5) 8 (S "a   bc d") = some [S "a   b", S "c d"] ∧
    pyWords (S "a   bc d") = [S "a", S "bc", S "d"] ∧
    pyWords (S "a   b" ++ [' '] ++ S "c d") = [S "a", S "b", S "c", S "d"] := by
  refine ⟨by decide, by decide, by decide⟩

/-- C6: the non-empty-chunk claim fails on the code.  With the
character-count metric and limit 2, on the single word `"xyzzy"` the
first iteration of the fallback loop of `_split_long_chunk` yields the
empty string (the candidate region is empty and holds no punctuation),
so the generator returned by `split` produces an empty chunk — and the
loop never finishes, whatever the fuel. -/
theorem c6_nonempty_code_bug :
    (runSLC (cfgLen 2) 1 (S "xyzzy")).1 = [([] : Str)] ∧
    (∀ n, splitTextF (cfgLen 2) n (S "xyzzy") = none) := by
  refine ⟨by decide, splitTextF_stuck (cfgLen 2) (S "xyzzy") (by decide) (by decide)
    (by decide) (by decide) (by decide) (by decide)⟩

/-- Every chunk produced by the block loop of `split` comes from the
processing of a single block: blocks are handled independently and their
chunk lists are concatenated, for any list of blocks (hence for any
hard-boundary pattern). -/
theorem mem_splitBlocksF {cfg : Config} {n : Nat} {bs cs : List Str} {c : Str}
    (h : splitBlocksF cfg n bs = some cs) (hc : c ∈ cs) :
    ∃ b ∈ bs, ∃ bcs, processBlockF cfg n b = some bcs ∧ c ∈ bcs := by
  induction bs generalizing cs with
  | nil =>
    simp only [splitBlocksF, Option.some.injEq] at h
    subst h
    simp at hc
  | cons b bs ih =>
    simp only [splitBlocksF, Option.bind_eq_some, Option.map_eq_some'] at h
    obtain ⟨cs1, h1, cs2, h2, rfl⟩ := h
    rcases List.mem_append.mp hc with hl | hr
    · exact ⟨b, List.mem_cons_self b bs, cs1, h1, hl⟩
    · obtain ⟨b', hb', r⟩ := ih h2 hr
      exact ⟨b', List.mem_cons_of_mem b hb', r⟩

/-- C7: hard boundaries are respected.  Every chunk produced by `split`
belongs to the chunk list of a single newline-delimited block — the block
loop concatenates per-block results and never merges text across a
boundary — and concretely `"aa\nbb"` with limit 100 yields the two
chunks `"aa"` and `"bb"` even though the merged text `"aa bb"` would fit
under the limit. -/
theorem c7_hard_boundary :
    (∀ (cfg : Config) (n : Nat) (text : Str) (chunks : List Str) (c : Str),
      splitTextF cfg n text = some chunks → c ∈ chunks →
      ∃ b ∈ splitOnNl text, ∃ bcs, processBlockF cfg n b = some bcs ∧ c ∈ bcs) ∧
    splitTextF (cfgLen 100) 2 (S "aa\nbb") = some [S "aa", S "bb"] ∧
    (cfgLen 100).lengthFn (S "aa bb") ≤ 100 := by
  refine ⟨?_, by decide, by decide⟩
  intro cfg n text chunks c h hc
  unfold splitTextF at h
  split at h
  · cases h
    simp at hc
  · exact mem_splitBlocksF h hc

/-- Witness for C7 at a concrete input. -/
theorem c7_hard_boundary_witness :
    ∃ b ∈ splitOnNl (S "aa\nbb"), ∃ bcs,
      processBlockF (cfgLen 100) 2 b = some bcs ∧ S "aa" ∈ bcs :=
  c7_hard_boundary.1 (cfgLen 100) 2 (S "aa\nbb") [S "aa", S "bb"] (S "aa")
    (by decide) (by decide)

/-- C8: the sentence-aggregation pass is greedy.  For a non-empty
accumulator and a candidate sentence that is itself within the limit, the
sentence is appended (joined by a single space) exactly when the cost of
the joined text is within the limit, and otherwise the accumulator is
emitted and the candidate starts a new accumulator; concretely
`"Hello world. This is a test."` with character count and limit 15
yields exactly `"Hello world."` and `"This is a test."`. -/
theorem c8_greedy_aggregation :
    (∀ (cfg : Config) (n : Nat) (acc s : Str) (rest : List Str),
      acc ≠ [] → strip s ≠ [] → ¬ cfg.maxChunkSize < cfg.lengthFn (strip s) →
      aggSentences cfg n (s :: rest) acc =
        if cfg.maxChunkSize < cfg.lengthFn (acc ++ [' '] ++ strip s) then
          (aggSentences cfg n rest (strip s)).map fun tail => acc :: tail
        else aggSentences cfg n rest (acc ++ [' '] ++ strip s)) ∧
    splitTextF (cfgLen 15) 2 (S "Hello world. This is a test.") =
      some [S "Hello world.", S "This is a test."] := by
  refine ⟨?_, by decide⟩
  intro cfg n acc s rest hacc hs hfit
  simp only [aggSentences, if_neg hs, if_neg hfit, if_neg hacc]

/-- Witness for C8 at a concrete input. -/
theorem c8_greedy_aggregation_witness :
    aggSentences (cfgLen 15) 1 [S "Yo."] (S "Hi.") =
      if (cfgLen 15).maxChunkSize <
          (cfgLen 15).lengthFn (S "Hi." ++ [' '] ++ strip (S "Yo.")) then
        (aggSentences (cfgLen 15) 1 [] (strip (S "Yo."))).map fun tail => S "Hi." :: tail
      else aggSentences (cfgLen 15) 1 [] (S "Hi." ++ [' '] ++ strip (S "Yo.")) :=
  c8_greedy_aggregation.1 (cfgLen 15) 1 (S "Hi.") (S "Yo.") []
    (by decide) (by decide) (by decide)

/-- C9: the constructor raises exactly when `max_chunk_size ≤ 0`, and
construction succeeds for every positive limit; the split functions have
no configuration check at all (their only `none` outcome is fuel
exhaustion), so no configuration-validity error arises at split time. -/
theorem c9_config_validation :
    ∀ (m : Int) (lf : Option (Str → Nat)),
      ((∃ e, textSplitterInit m lf = Except.error e) ↔ m ≤ 0) ∧
      ((∃ cfg, textSplitterInit m lf = Except.ok cfg) ↔ 0 < m) := by
  intro m lf
  unfold textSplitterInit
  by_cases h : m ≤ 0
  · rw [if_pos h]
    constructor
    · exact ⟨fun _ => h, fun _ => ⟨_, rfl⟩⟩
    · constructor
      · rintro ⟨cfg, hcfg⟩
        cases hcfg
      · intro hm
        exact absurd h (Int.not_le.mpr hm)
  · rw [if_neg h]
    constructor
    · constructor
      · rintro ⟨e, he⟩
        cases he
      · intro hm
        exact absurd hm h
    · exact ⟨fun _ => Int.not_le.mp h, fun _ => ⟨_, rfl⟩⟩

theorem lstrip_eq_dropWhile (s : Str) : lstrip s = List.dropWhile isWs s := rfl

theorem rstrip_eq_rdropWhile (s : Str) : rstrip s = List.rdropWhile isWs s := rfl

theorem lstrip_idem (s : Str) : lstrip (lstrip s) = lstrip s :=
  List.dropWhile_idempotent isWs s

theorem rstrip_idem (s : Str) : rstrip (rstrip s) = rstrip s :=
  List.rdropWhile_idempotent isWs s

/-- The head of a string unchanged by `lstrip` is not whitespace. -/
theorem isWs_head_false_of_lstrip_fixed {s : Str} (h : lstrip s = s) :
    ∀ a, s.head? = some a → ¬ isWs a = true := by
  cases s with
  | nil => intro a ha; cases ha
  | cons c t =>
    intro a ha hws
    obtain rfl : c = a := by cases ha; rfl
    exact List.dropWhile_eq_self_iff.mp h (by simp) hws

/-- A string whose head is not whitespace is unchanged by `lstrip`. -/
theorem lstrip_fixed_of_head {s : Str} (h : ∀ a, s.head? = some a → ¬ isWs a = true) :
    lstrip s = s := by
  cases s with
  | nil => rfl
  | cons c t => exact List.dropWhile_cons_of_neg (h c rfl)

theorem head?_append_of_ne_nil {l m : Str} (h : l ≠ []) : (l ++ m).head? = l.head? := by
  cases l with
  | nil => exact absurd rfl h
  | cons c t => rfl

/-- `rstrip s` is an initial segment of `s`. -/
theorem rstrip_append_eq (t : Str) : ∃ u, rstrip t ++ u = t := by
  obtain ⟨u, hu⟩ := (List.dropWhile_suffix isWs : List.dropWhile isWs t.reverse <:+ t.reverse)
  refine ⟨u.reverse, ?_⟩
  rw [rstrip, ← List.reverse_append, hu, List.reverse_reverse]

/-- `rstrip` does not disturb the absence of leading whitespace. -/
theorem lstrip_rstrip_fixed {t : Str} (h : lstrip t = t) :
    lstrip (rstrip t) = rstrip t := by
  apply lstrip_fixed_of_head
  intro a ha
  obtain ⟨u, hu⟩ := rstrip_append_eq t
  have hne : rstrip t ≠ [] := by
    intro hnil
    rw [hnil] at ha
    cases ha
  have ht : t.head? = some a := by
    rw [← hu, head?_append_of_ne_nil hne, ha]
  exact isWs_head_false_of_lstrip_fixed h a ht

theorem Stripped.strip_eq {c : Str} (h : Stripped c) : strip c = c := by
  rw [strip, h.1, h.2]

theorem stripped_nil : Stripped ([] : Str) := ⟨rfl, rfl⟩

/-- The result of `str.strip()` has no boundary whitespace. -/
theorem stripped_strip (s : Str) : Stripped (strip s) :=
  ⟨lstrip_rstrip_fixed (lstrip_idem s), rstrip_idem (lstrip s)⟩

theorem rstrip_fixed_iff_lstrip_reverse {s : Str} :
    rstrip s = s ↔ lstrip s.reverse = s.reverse := by
  rw [rstrip, lstrip]
  constructor
  · intro h
    have := congrArg List.reverse h
    simpa using this
  · intro h
    rw [h, List.reverse_reverse]

/-- `cut_text = current_chunk[:estimated_cut_off].rstrip()` has no
boundary whitespace when `current_chunk` has none. -/
theorem stripped_rstrip_take {cc : Str} (h : Stripped cc) (n : Nat) :
    Stripped (rstrip (cc.take n)) := by
  refine ⟨?_, rstrip_idem _⟩
  apply lstrip_rstrip_fixed
  apply lstrip_fixed_of_head
  intro a ha
  have hcc : cc.head? = some a := by
    cases n with
    | zero => cases ha
    | succ n =>
      cases cc with
      | nil => cases ha
      | cons c t => simpa using ha
  exact isWs_head_false_of_lstrip_fixed h.1 a hcc

/-- Joining two non-empty trimmed strings with a single space yields a
trimmed string. -/
theorem stripped_append {x y : Str} (hx : Stripped x) (hxne : x ≠ [])
    (hy : Stripped y) (hyne : y ≠ []) : Stripped (x ++ [' '] ++ y) := by
  constructor
  · apply lstrip_fixed_of_head
    intro a ha
    rw [head?_append_of_ne_nil (show x ++ [' '] ≠ [] by simp),
      head?_append_of_ne_nil hxne] at ha
    exact isWs_head_false_of_lstrip_fixed hx.1 a ha
  · rw [rstrip_fixed_iff_lstrip_reverse]
    apply lstrip_fixed_of_head
    intro a ha
    have hyrev : y.reverse ≠ [] := by
      simpa using hyne
    rw [List.reverse_append, head?_append_of_ne_nil hyrev] at ha
    have := rstrip_fixed_iff_lstrip_reverse.mp hy.2
    exact isWs_head_false_of_lstrip_fixed this a ha

/-- Both outputs of one fallback-loop iteration are trimmed when the
input is. -/
theorem stripped_sLCStep {cfg : Config} {cc : Str} (h : Stripped cc) :
    Stripped (sLCStep cfg cc).1 ∧ Stripped (sLCStep cfg cc).2 := by
  unfold sLCStep
  cases hp : lastPunctPos (rstrip (cc.take (estimatedCutOff cfg cc))) with
  | none =>
    simp only [hp]
    exact ⟨stripped_rstrip_take h _, stripped_strip _⟩
  | some p =>
    simp only [hp]
    exact ⟨stripped_strip _, stripped_strip _⟩

/-- Every chunk yielded by the fallback loop, and the remaining text, are
trimmed when the input is. -/
theorem stripped_runSLC {cfg : Config} {cc : Str} (h : Stripped cc) (n : Nat) :
    (∀ c ∈ (runSLC cfg n cc).1, Stripped c) ∧ Stripped (runSLC cfg n cc).2 := by
  induction n generalizing cc with
  | zero => exact ⟨by simp [runSLC], h⟩
  | succ n ih =>
    rw [runSLC]
    by_cases hl : cfg.maxChunkSize < cfg.lengthFn cc
    · simp only [if_pos hl]
      obtain ⟨h1, h2⟩ := @stripped_sLCStep cfg cc h
      obtain ⟨ih1, ih2⟩ := ih h2
      refine ⟨?_, ih2⟩
      intro c hc
      rcases List.mem_cons.mp hc with rfl | hc'
      · exact h1
      · exact ih1 c hc'
    · simp only [if_neg hl]
      exact ⟨by simp, h⟩

/-- Every chunk produced by `_split_long_chunk` is trimmed when its
input is. -/
theorem stripped_splitLongF {cfg : Config} {cc : Str} (h : Stripped cc) {n : Nat}
    {parts : List Str} (hp : splitLongF cfg n cc = some parts) :
    ∀ c ∈ parts, Stripped c := by
  rw [splitLongF] at hp
  obtain ⟨h1, h2⟩ := @stripped_runSLC cfg cc h n
  by_cases hl : cfg.maxChunkSize < cfg.lengthFn (runSLC cfg n cc).2
  · simp only [if_pos hl] at hp
    cases hp
  · simp only [if_neg hl, Option.some.injEq] at hp
    subst hp
    intro c hc
    rcases List.mem_append.mp hc with hc1 | hc2
    · exact h1 c hc1
    · by_cases hnil : (runSLC cfg n cc).2 = []
      · rw [if_pos hnil] at hc2
        simp at hc2
      · rw [if_neg hnil] at hc2
        rw [List.mem_singleton.mp hc2]
        exact h2

/-- Every chunk produced by the sentence-aggregation loop is trimmed when
the incoming accumulator is. -/
theorem stripped_aggSentences {cfg : Config} {n : Nat} :
    ∀ (ss : List Str) (acc : Str), Stripped acc →
      ∀ {cs : List Str}, aggSentences cfg n ss acc = some cs →
      ∀ c ∈ cs, Stripped c := by
  intro ss
  induction ss with
  | nil =>
    intro acc hacc cs h c hc
    by_cases ha : acc = []
    · simp only [aggSentences, if_pos ha, Option.some.injEq] at h
      subst h
      simp at hc
    · simp only [aggSentences, if_neg ha, Option.some.injEq] at h
      subst h
      rw [List.mem_singleton.mp hc]
      exact hacc
  | cons s rest ih =>
    intro acc hacc cs h c hc
    rw [aggSentences] at h
    by_cases h0 : strip s = []
    · rw [if_pos h0] at h
      exact ih acc hacc h c hc
    · rw [if_neg h0] at h
      by_cases h1 : cfg.maxChunkSize < cfg.lengthFn (strip s)
      · rw [if_pos h1] at h
        rw [Option.bind_eq_some] at h
        obtain ⟨parts, hparts, h⟩ := h
        rw [Option.map_eq_some'] at h
        obtain ⟨tail, htail, rfl⟩ := h
        rcases List.mem_append.mp hc with hx | ht
        · rcases List.mem_append.mp hx with hf | hpmem
          · by_cases ha : acc = []
            · rw [if_pos ha] at hf
              simp at hf
            · rw [if_neg ha] at hf
              rw [List.mem_singleton.mp hf]
              exact hacc
          · exact stripped_splitLongF (stripped_strip s) hparts c hpmem
        · exact ih [] stripped_nil htail c ht
      · rw [if_neg h1] at h
        by_cases h2 : cfg.maxChunkSize <
            cfg.lengthFn (acc ++ (if acc = ([] : Str) then [] else [' ']) ++ strip s)
        · rw [if_pos h2] at h
          rw [Option.map_eq_some'] at h
          obtain ⟨tail, htail, rfl⟩ := h
          rcases List.mem_cons.mp hc with rfl | hcc
          · exact hacc
          · exact ih (strip s) (stripped_strip s) htail c hcc
        · rw [if_neg h2] at h
          have hnew : Stripped (acc ++ (if acc = ([] : Str) then [] else [' ']) ++ strip s) := by
            by_cases ha : acc = []
            · simpa [ha] using stripped_strip s
            · simp only [if_neg ha]
              exact stripped_append hacc ha (stripped_strip s) h0
          exact ih _ hnew h c hc

/-- Every chunk produced for one block is trimmed. -/
theorem stripped_processBlockF {cfg : Config} {n : Nat} {b : Str} {cs : List Str}
    (h : processBlockF cfg n b = some cs) : ∀ c ∈ cs, Stripped c := by
  rw [processBlockF] at h
  by_cases h0 : strip b = []
  · rw [if_pos h0] at h
    cases h
    simp
  · rw [if_neg h0] at h
    exact stripped_aggSentences _ _ stripped_nil h

/-- C10: every chunk produced by `split` is its own whitespace-trimmed
form — accumulator chunks are joins of stripped sentences by single
spaces, fallback chunks are either explicitly stripped or an
`rstrip`-ped prefix of a text with no leading whitespace, and the final
remainder is stripped. -/
theorem c10_trimmed_chunks :
    ∀ (cfg : Config) (n : Nat) (text : Str) (chunks : List Str),
      splitTextF cfg n text = some chunks → ∀ c ∈ chunks, strip c = c := by
  intro cfg n text chunks h c hc
  rw [splitTextF] at h
  by_cases h0 : strip text = []
  · rw [if_pos h0] at h
    cases h
    simp at hc
  · rw [if_neg h0] at h
    obtain ⟨b, _, bcs, hb, hcb⟩ := mem_splitBlocksF h hc
    exact (stripped_processBlockF hb c hcb).strip_eq

/-- Witness for C10 at a concrete input with boundary whitespace. -/
theorem c10_trimmed_chunks_witness : strip (S "Hi.") = S "Hi." :=
  c10_trimmed_chunks (cfgLen 15) 1 (S "  Hi.  ") [S "Hi."] (by decide)
    (S "Hi.") (by decide)
